import Mathlib

/-!
# Verification of the arweave-python-client2.0 transaction core

A shallow embedding of the client-side transaction assembly and signing
engine of the `arweave` package (KeyStore signing, deep hash, chunking with
Merkle data roots, transaction construction/serialization, confirmation
tracking and batch submission), with theorems settling the specification's
claims.  The `arweave` package implementation itself is not present in the
repository snapshot (only its test suite and packaging metadata are), so
every operation below is modelled from the specification's description of
it, faithful to the spec's words.
-/

namespace Arweave

/-- A byte, as used for all binary payloads. -/
abbrev Byte := Fin 256

/-- Truncate a natural number into a byte. -/
def byteOf (n : Nat) : Byte := ⟨n % 256, Nat.mod_lt _ (by omega)⟩

/-! ## Base64url encoding (no padding)

Modelled from the spec: "base64url encoding for all binary fields"
(§4.5 `to_canonical_form`, §6 canonical transaction form).  Bytes are
packed into 6-bit sextets and rendered with the URL-safe alphabet,
without padding characters. -/

/-- The URL-safe base64 alphabet, in sextet order. -/
def b64Alphabet : List Char :=
  ['A','B','C','D','E','F','G','H','I','J','K','L','M','N','O','P','Q','R','S','T','U','V','W','X','Y','Z',
   'a','b','c','d','e','f','g','h','i','j','k','l','m','n','o','p','q','r','s','t','u','v','w','x','y','z',
   '0','1','2','3','4','5','6','7','8','9','-','_']

/-- Render one sextet as its alphabet character. -/
def sextetToChar (n : Nat) : Char := b64Alphabet.getD n 'A'

/-- Recover a sextet from its alphabet character; `none` for characters
outside the alphabet. -/
def charToSextet (c : Char) : Option Nat := b64Alphabet.indexOf? c

/-- Pack bytes into sextets, three bytes to four sextets, with the
standard short forms for a trailing group of one or two bytes. -/
def encodeGroups : List Byte → List Nat
  | [] => []
  | [a] => [a.val / 4, a.val % 4 * 16]
  | [a, b] => [a.val / 4, a.val % 4 * 16 + b.val / 16, b.val % 16 * 4]
  | a :: b :: c :: rest =>
      a.val / 4 :: (a.val % 4 * 16 + b.val / 16) :: (b.val % 16 * 4 + c.val / 64)
        :: c.val % 64 :: encodeGroups rest

/-- Unpack sextets into bytes, rejecting out-of-range sextets and
impossible lengths. -/
def decodeGroups : List Nat → Option (List Byte)
  | [] => some []
  | [_] => none
  | [s0, s1] =>
      if s0 < 64 ∧ s1 < 64 then some [byteOf (s0 * 4 + s1 / 16)] else none
  | [s0, s1, s2] =>
      if s0 < 64 ∧ s1 < 64 ∧ s2 < 64 then
        some [byteOf (s0 * 4 + s1 / 16), byteOf (s1 % 16 * 16 + s2 / 4)]
      else none
  | s0 :: s1 :: s2 :: s3 :: rest =>
      if s0 < 64 ∧ s1 < 64 ∧ s2 < 64 ∧ s3 < 64 then
        (decodeGroups rest).map (fun bs =>
          byteOf (s0 * 4 + s1 / 16) :: byteOf (s1 % 16 * 16 + s2 / 4)
            :: byteOf (s2 % 4 * 64 + s3) :: bs)
      else none

/-- Base64url-encode a byte string. -/
def b64urlEncode (bs : List Byte) : String :=
  String.mk ((encodeGroups bs).map sextetToChar)

/-- Base64url-decode a string; `none` on malformed input. -/
def b64urlDecode (s : String) : Option (List Byte) := do
  let sextets ← s.data.mapM charToSextet
  decodeGroups sextets

/-! (Round-trip lemmas for the encoding are stated with the other
theorems, below the definitions.) -/

/-! ## Cryptographic digest and signing primitive

Modelled from the spec: the hash function is "a fixed-output cryptographic
digest (256-bit class)" (§4.2); KeyStore's `sign` is an RSA-PSS signature,
"deterministic verification, non-deterministic signature bytes" (§4.1).
The digest is modelled as an abstract deterministic 32-byte digest; the
signature as a deterministic function of key material, a salt (carrying
the probabilistic padding) and the message. -/

/-- Little-endian byte decomposition of a natural number, fixed width. -/
def natToBytesLE : Nat → Nat → List Byte
  | 0, _ => []
  | k + 1, n => byteOf n :: natToBytesLE k (n / 256)

/-- Modelled from the spec: the fixed 256-bit-class cryptographic digest
used throughout (deep hash leaves, chunk digests, Merkle nodes, the
transaction id).  An abstract deterministic 32-byte digest function. -/
def digest (bs : List Byte) : List Byte :=
  natToBytesLE 32 (bs.foldl (fun h b => (h * 257 + b.val + 1) % 2 ^ 256) 7)

/-- Modelled from the spec: KeyStore's signing primitive (§4.1), an
RSA-PSS signature over the message; the salt carries the probabilistic
padding explicitly. -/
def keySign (key salt msg : List Byte) : List Byte :=
  digest (key ++ salt ++ msg)

/-! ## DeepHasher

Modelled from the spec (§4.2): a recursive canonical hash over a value
that is either a byte-string ("blob") or an ordered list of values.
The exact tag encoding is a versioned policy (§9); tags are modelled as
the ASCII bytes of "blob" / "list" and the length prefix as the ASCII
decimal digits of the length. -/

/-- A deep-hashable value: a blob of bytes or an ordered list of values. -/
inductive DHValue where
  | blob (b : List Byte)
  | list (l : List DHValue)
deriving Repr

/-- The bytes of a string, codepoints truncated to bytes. -/
def strBytes (s : String) : List Byte := s.data.map (fun c => byteOf c.toNat)

/-- ASCII decimal length prefix. -/
def lenPrefix (n : Nat) : List Byte := strBytes (toString n)

mutual

/-- Modelled from the spec (§4.2):
`hash(blob)` is `digest(tag("blob") ‖ length-prefix(blob) ‖ digest(blob))`;
`hash(list)` folds left from `digest(tag("list") ‖ length-prefix(n))`,
each step taking `digest(accumulator ‖ hash(item))`. -/
def deepHash : DHValue → List Byte
  | .blob b => digest (strBytes "blob" ++ lenPrefix b.length ++ digest b)
  | .list l => deepHashList (digest (strBytes "list" ++ lenPrefix l.length)) l

/-- The left fold over a list's items, from the given accumulator. -/
def deepHashList (acc : List Byte) : List DHValue → List Byte
  | [] => acc
  | v :: vs => deepHashList (digest (acc ++ deepHash v)) vs

end

/-! ## Errors, transaction state, tags, chunk records -/

/-- Modelled from the spec (§7): the error taxonomy surfaced by the core. -/
inductive ArweaveError where
  | signingError
  | keyLoadError
  | immutableTransactionError
  | chunkIndexError
  | quoteUnavailableError
  | submissionError
  | notFoundError
deriving DecidableEq, Repr

/-- Modelled from the spec (§4.5): the transaction state machine
`Unsigned → Signed → Submitted → {Pending, Failed, Confirmed}`. -/
inductive TxState where
  | Unsigned
  | Signed
  | Submitted
  | Pending
  | Failed
  | Confirmed
deriving DecidableEq, Repr

/-- Modelled from the spec (§3): a tag is an ordered (name, value) pair of
byte strings; `encode_tags` rewrites each entry in place into its encoded
string form, so an entry is either still a raw pair or already encoded. -/
inductive Tag where
  | pair (name value : List Byte)
  | encoded (s : String)
deriving DecidableEq, Repr

/-- Whether a tag entry is still a raw (name, value) pair. -/
def Tag.isPair : Tag → Bool
  | .pair _ _ => true
  | .encoded _ => false

/-- Whether a tag entry is in encoded string form. -/
def Tag.isEncoded : Tag → Bool
  | .pair _ _ => false
  | .encoded _ => true

/-- Modelled from the spec (§4.3 `get_chunk`): the per-chunk record
{chunk bytes, data_root, offset, proof}. -/
structure ChunkRecord where
  chunk : List Byte
  data_root : List Byte
  offset : Nat
  proof : List (List Byte)
deriving DecidableEq, Repr

/-- Modelled from the spec (§3 Transaction): the mutable-until-signed
aggregate of canonical fields, client-local metadata, scheduled time,
prepared chunk records and the lifecycle state.  Binary canonical fields
(`id`, `data`, `data_root`, `signature`) are stored base64url-encoded as
strings; `rawData` keeps the underlying payload bytes for chunking. -/
structure Transaction where
  id : String
  last_tx : String
  owner : String
  target : String
  quantity : String
  reward : String
  data : String
  rawData : List Byte
  data_size : Nat
  data_root : String
  tags : List Tag
  signature : String
  metadata : List (String × String)
  scheduled_time : Option Nat
  chunks : Option (List ChunkRecord)
  state : TxState
deriving DecidableEq, Repr

/-! ## ChunkEngine

Modelled from the spec (§4.3): split payload bytes into chunks no larger
than `max_chunk_size` (default 256 KiB), rebalancing a trailing chunk
that would fall below a minimum viable size with its neighbor; build a
binary Merkle tree over chunk digests whose internal nodes hash
(left-hash ‖ left-max-offset ‖ right-hash ‖ right-max-offset) (§3 Merkle
Node); expose the root (data root), per-chunk offsets and proof paths. -/

/-- Default maximum chunk size: 256 KiB. -/
def maxChunkSize : Nat := 256 * 1024

/-- Minimum viable chunk size below which a trailing chunk is rebalanced. -/
def minChunkSize : Nat := 32 * 1024

/-- Split a payload into consecutive chunks of at most `m` bytes; the
fuel bounds the number of chunks produced (the payload length always
suffices, since every step consumes at least one byte). -/
def splitChunksAux (m : Nat) : Nat → List Byte → List (List Byte)
  | _, [] => []
  | 0, p => [p]
  | fuel + 1, p =>
      if p.length ≤ m then [p] else p.take m :: splitChunksAux m fuel (p.drop m)

/-- Split a payload into consecutive chunks of at most `m` bytes. -/
def splitChunks (p : List Byte) (m : Nat) : List (List Byte) :=
  if m = 0 then [] else splitChunksAux m p.length p

/-- Rebalance: when the final chunk falls below the minimum viable size
and has a neighbor, the last two chunks are re-split evenly. -/
def rebalance (minSize : Nat) : List (List Byte) → List (List Byte)
  | [] => []
  | [c] => [c]
  | [a, b] =>
      if b.length < minSize then
        let all := a ++ b
        let half := (all.length + 1) / 2
        [all.take half, all.drop half]
      else [a, b]
  | a :: b :: c :: rest => a :: rebalance minSize (b :: c :: rest)

/-- The chunk sequence of a payload under a maximum chunk size. -/
def chunkPayload (p : List Byte) (m : Nat) : List (List Byte) :=
  rebalance minChunkSize (splitChunks p m)

/-- Start offsets of each chunk within the payload, from `start`. -/
def chunkOffsets (cs : List (List Byte)) (start : Nat) : List Nat :=
  match cs with
  | [] => []
  | c :: rest => start :: chunkOffsets rest (start + c.length)

/-- A binary Merkle tree node: its hash, its maximum byte offset, and
(for internal nodes) its two children. -/
inductive MTree where
  | leaf (h : List Byte) (maxOff : Nat)
  | node (h : List Byte) (maxOff : Nat) (l r : MTree)
deriving DecidableEq, Repr

/-- The hash stored at the root of a (sub)tree. -/
def MTree.rootHash : MTree → List Byte
  | .leaf h _ => h
  | .node h _ _ _ => h

/-- The maximum byte offset covered by a (sub)tree. -/
def MTree.maxOffset : MTree → Nat
  | .leaf _ o => o
  | .node _ o _ _ => o

/-- The number of leaves of a (sub)tree. -/
def MTree.leafCount : MTree → Nat
  | .leaf _ _ => 1
  | .node _ _ l r => l.leafCount + r.leafCount

/-- Leaves of the Merkle tree: one per chunk, hashing the chunk digest
together with the chunk's end offset. -/
def leavesOf (cs : List (List Byte)) (start : Nat) : List MTree :=
  match cs with
  | [] => []
  | c :: rest =>
      MTree.leaf (digest (digest c ++ lenPrefix (start + c.length))) (start + c.length)
        :: leavesOf rest (start + c.length)

/-- Pair adjacent nodes into parents (odd last node promoted), hashing
(left-hash ‖ left-max-offset ‖ right-hash ‖ right-max-offset). -/
def buildLevel : List MTree → List MTree
  | [] => []
  | [t] => [t]
  | a :: b :: rest =>
      MTree.node
        (digest (a.rootHash ++ lenPrefix a.maxOffset ++ b.rootHash ++ lenPrefix b.maxOffset))
        b.maxOffset a b
        :: buildLevel rest

/-- Collapse levels bottom-up until a single root remains; the fuel is
an upper bound on the number of levels (each level at least halves the
node count, so the initial node count suffices). -/
def buildTreeAux : Nat → List MTree → Option MTree
  | _, [] => none
  | _, [t] => some t
  | 0, _ :: _ :: _ => none
  | fuel + 1, a :: b :: rest => buildTreeAux fuel (buildLevel (a :: b :: rest))

/-- Build the Merkle tree over a list of leaves. -/
def buildTree (ts : List MTree) : Option MTree := buildTreeAux ts.length ts

/-- Well-defined sentinel root for an empty payload. -/
def emptyRootSentinel : List Byte := List.replicate 32 (byteOf 0)

/-- The data root of a payload: the Merkle root over its chunk leaves. -/
def dataRootBytes (p : List Byte) (m : Nat) : List Byte :=
  match buildTree (leavesOf (chunkPayload p m) 0) with
  | none => emptyRootSentinel
  | some t => t.rootHash

/-- The proof path for leaf index `i`: the ordered sibling digests (with
offset markers) from leaf to root. -/
def proofAt : MTree → Nat → List (List Byte)
  | .leaf _ _, _ => []
  | .node _ _ l r, i =>
      if i < l.leafCount then proofAt l i ++ [r.rootHash ++ lenPrefix r.maxOffset]
      else proofAt r (i - l.leafCount) ++ [l.rootHash ++ lenPrefix l.maxOffset]

/-- The per-chunk records of a payload: chunk bytes, data root, offset
and proof path, in chunk order. -/
def computeRecords (p : List Byte) (m : Nat) : List ChunkRecord :=
  let cs := chunkPayload p m
  let root := dataRootBytes p m
  let tree := buildTree (leavesOf cs 0)
  (List.range cs.length).map (fun i =>
    { chunk := cs.getD i []
      data_root := root
      offset := (chunkOffsets cs 0).getD i 0
      proof := match tree with | none => [] | some t => proofAt t i })

/-! ## TransactionBuilder operations

Modelled from the spec (§4.5): construction, tag/metadata mutation with
the immutability guard, tag encoding, signing, chunk preparation, random
chunk access, scheduling, and canonical (de)serialization.  Collaborator
calls (last-reference lookup, key material) are passed in as explicit
arguments. -/

/-- Modelled from the spec: construction from raw parameters (§4.5).
Data at most the inline threshold is stored inline (base64url-encoded);
larger data is chunked eagerly and the data root stored instead.  `id`
and `signature` start empty; the state starts `Unsigned`. -/
def newTransaction (owner lastTx target quantity reward : String)
    (payload : List Byte) (inlineThreshold : Nat) : Transaction :=
  if payload.length ≤ inlineThreshold then
    { id := "", last_tx := lastTx, owner := owner, target := target,
      quantity := quantity, reward := reward,
      data := b64urlEncode payload, rawData := payload,
      data_size := payload.length, data_root := "",
      tags := [], signature := "", metadata := [], scheduled_time := none,
      chunks := none, state := .Unsigned }
  else
    { id := "", last_tx := lastTx, owner := owner, target := target,
      quantity := quantity, reward := reward,
      data := "", rawData := payload,
      data_size := payload.length,
      data_root := b64urlEncode (dataRootBytes payload maxChunkSize),
      tags := [], signature := "", metadata := [], scheduled_time := none,
      chunks := some (computeRecords payload maxChunkSize), state := .Unsigned }

/-- Modelled from the spec: `add_tag(name, value)` is only legal in
`Unsigned`; on a signed transaction it fails with
`ImmutableTransactionError` and leaves the transaction unchanged. -/
def addTag (tx : Transaction) (name value : List Byte) :
    Transaction × Option ArweaveError :=
  if tx.state = .Unsigned then
    ({ tx with tags := tx.tags ++ [.pair name value] }, none)
  else (tx, some .immutableTransactionError)

/-- Modelled from the spec: `add_metadata(map)` is only legal in
`Unsigned`; after `Signed` it fails with `ImmutableTransactionError`. -/
def addMetadata (tx : Transaction) (m : List (String × String)) :
    Transaction × Option ArweaveError :=
  if tx.state = .Unsigned then
    ({ tx with metadata := tx.metadata ++ m }, none)
  else (tx, some .immutableTransactionError)

/-- Record a client-local scheduled time (not a canonical field). -/
def scheduleTransaction (tx : Transaction) (t : Nat) : Transaction :=
  { tx with scheduled_time := some t }

/-- The encoded string form of one tag entry: both components
base64url-encoded (§6); an already-encoded entry is left as is. -/
def encodeTagEntry : Tag → Tag
  | .pair n v => .encoded (b64urlEncode n ++ ":" ++ b64urlEncode v)
  | .encoded s => .encoded s

/-- `encode_tags()`: rewrite the tags list in place into encoded string
form, preserving count and order. -/
def encodeTags (tx : Transaction) : Transaction :=
  { tx with tags := tx.tags.map encodeTagEntry }

/-- A tag as a deep-hash value: the ordered [name, value] blob list. -/
def tagDHValue : Tag → DHValue
  | .pair n v => .list [.blob n, .blob v]
  | .encoded s => .blob (strBytes s)

/-- Modelled from the spec (§4.2, §4.5): the canonical signable field
list, in signing order: owner, target, quantity, reward, last-reference,
encoded tags, data-size, data-root. -/
def signableFields (tx : Transaction) : DHValue :=
  .list [ .blob (strBytes tx.owner), .blob (strBytes tx.target),
          .blob (strBytes tx.quantity), .blob (strBytes tx.reward),
          .blob (strBytes tx.last_tx), .list (tx.tags.map tagDHValue),
          .blob (strBytes (toString tx.data_size)),
          .blob (strBytes tx.data_root) ]

/-- Modelled from the spec: `sign()` (§4.5) — fetch the last-reference
(passed in from the collaborator), deep-hash the canonical field list,
sign it with the key, derive `id = digest(signature)` base64url-encoded,
and transition to `Signed`.  Re-invoking after `Signed` is a no-op;
absent key material fails with `SigningError`. -/
def signTx (tx : Transaction) (key salt : List Byte) (lastTx : String) :
    Except ArweaveError Transaction :=
  if tx.state = .Signed then .ok tx
  else if key = [] then .error .signingError
  else
    let tx1 := { tx with last_tx := lastTx }
    let rawSig := keySign key salt (deepHash (signableFields tx1))
    .ok { tx1 with signature := b64urlEncode rawSig,
                   id := b64urlEncode (digest rawSig),
                   state := .Signed }

/-- `prepare_chunks()`: compute and store the chunk records and the data
root for the transaction's payload bytes. -/
def prepareChunks (tx : Transaction) : Transaction :=
  { tx with chunks := some (computeRecords tx.rawData maxChunkSize),
            data_root := b64urlEncode (dataRootBytes tx.rawData maxChunkSize) }

/-- Modelled from the spec: `get_chunk(i)` (§4.3) — random access by
chunk index; fails with `ChunkIndexError` if out of range or if chunking
has not yet been performed. -/
def getChunk (tx : Transaction) (i : Nat) : Except ArweaveError ChunkRecord :=
  match tx.chunks with
  | none => .error .chunkIndexError
  | some recs =>
      match recs[i]? with
      | none => .error .chunkIndexError
      | some r => .ok r

/-! ## Canonical serialization

Modelled from the spec (§4.5 `to_canonical_form`/`from_canonical_form`,
§6): a structured document with string-keyed fields, binary fields
base64url-encoded, tags an ordered list of (name, value) base64url
pairs; must round-trip losslessly including empty-optional fields. -/

/-- The canonical transaction form (§6). -/
structure CanonicalForm where
  id : String
  last_tx : String
  owner : String
  target : String
  quantity : String
  data : String
  data_root : String
  data_size : Nat
  reward : String
  signature : String
  tags : List (String × String)
deriving DecidableEq, Repr

/-- One tag entry of the canonical form: a base64url (name, value) pair. -/
def toCanonicalTag : Tag → String × String
  | .pair n v => (b64urlEncode n, b64urlEncode v)
  | .encoded s => (s, "")

/-- Serialize a transaction to its canonical form. -/
def toCanonical (tx : Transaction) : CanonicalForm :=
  { id := tx.id, last_tx := tx.last_tx, owner := tx.owner, target := tx.target,
    quantity := tx.quantity, data := tx.data, data_root := tx.data_root,
    data_size := tx.data_size, reward := tx.reward, signature := tx.signature,
    tags := tx.tags.map toCanonicalTag }

/-- Decode the canonical tag list back into (name, value) byte pairs. -/
def fromCanonicalTags : List (String × String) → Option (List Tag)
  | [] => some []
  | (n, v) :: rest =>
      match b64urlDecode n, b64urlDecode v, fromCanonicalTags rest with
      | some nb, some vb, some ts => some (Tag.pair nb vb :: ts)
      | _, _, _ => none

/-- Construct a transaction from a previously serialized canonical form;
fails on malformed base64url fields. -/
def fromCanonical (c : CanonicalForm) : Option Transaction :=
  match fromCanonicalTags c.tags, b64urlDecode c.data with
  | some ts, some raw => some
      { id := c.id, last_tx := c.last_tx, owner := c.owner, target := c.target,
        quantity := c.quantity, reward := c.reward, data := c.data, rawData := raw,
        data_size := c.data_size, data_root := c.data_root, tags := ts,
        signature := c.signature, metadata := [], scheduled_time := none,
        chunks := none,
        state := if c.signature = "" then .Unsigned else .Signed }
  | _, _ => none

/-! ## ConfirmationTracker

Modelled from the spec (§4.6): `poll_status` is a single non-blocking
query failing with `NotFoundError` when the network has never seen the
id; `await_confirmation` polls until `Confirmed`, `Failed` or timeout
(returning a `Pending` record on timeout); `submit_batch` submits each
transaction independently, preserving input order.  The network gateway
is an explicit collaborator function. -/

/-- The network-reported status of a transaction id. -/
inductive NetStatus where
  | confirmed (blocks : Nat)
  | pending
  | failed
  | notFound
deriving DecidableEq, Repr

/-- The external-facing status snapshot (§3 Confirmation Record). -/
structure ConfirmationRecord where
  txId : String
  status : NetStatus
deriving DecidableEq, Repr

/-- `poll_status(id)`: one query; `NotFoundError` when never seen. -/
def pollStatus (net : String → NetStatus) (id : String) :
    Except ArweaveError ConfirmationRecord :=
  match net id with
  | .notFound => .error .notFoundError
  | s => .ok ⟨id, s⟩

/-- The polling loop, with the remaining number of polls as fuel; returns
the outcome together with the number of polls actually performed. -/
def awaitAux (net : String → NetStatus) (id : String) :
    Nat → Except ArweaveError ConfirmationRecord × Nat
  | 0 => (.ok ⟨id, .pending⟩, 0)
  | fuel + 1 =>
      match pollStatus net id with
      | .error e => (.error e, 1)
      | .ok r =>
          match r.status with
          | .confirmed _ => (.ok r, 1)
          | .failed => (.ok r, 1)
          | _ =>
              let step := awaitAux net id fuel
              (step.1, step.2 + 1)

/-- `await_confirmation(id, timeout, poll_interval)`: repeatedly poll,
at most `timeout / poll_interval` times, returning a `Pending` record on
timeout; also reports how many polls were performed. -/
def awaitConfirmation (net : String → NetStatus) (id : String)
    (timeout pollInterval : Nat) :
    Except ArweaveError ConfirmationRecord × Nat :=
  awaitAux net id (timeout / max pollInterval 1)

/-- `submit_batch(transactions)`: submit each transaction independently
via the network collaborator, pairing each input (in order) with its
accepted id or its failure reason. -/
def submitBatch (submit : Transaction → Except String String)
    (txs : List Transaction) : List (Transaction × Except String String) :=
  txs.map (fun tx => (tx, submit tx))

/-! ## Sample inputs (concrete transactions used to instantiate the
universally quantified theorems) -/

/-- A small unsigned transaction with inline data. -/
def sampleUnsigned : Transaction :=
  newTransaction "own" "ltx" "" "0" "1" (strBytes "hello") 100

/-- The sample transaction with one tag added. -/
def sampleTagged : Transaction :=
  (addTag sampleUnsigned [byteOf 1] [byteOf 2]).1

/-- The sample transaction forced into the `Signed` state. -/
def sampleSigned : Transaction :=
  { sampleUnsigned with state := .Signed }

/-- An 18-byte ASCII payload. -/
def c8Payload : List Byte := strBytes "This is test data!"

/-! ## Supporting lemmas -/

theorem charToSextet_sextetToChar (n : Nat) (h : n < 64) :
    charToSextet (sextetToChar n) = some n := by
  interval_cases n <;> decide

theorem encodeGroups_lt (bs : List Byte) : ∀ s ∈ encodeGroups bs, s < 64 := by
  induction bs using encodeGroups.induct with
  | case1 => simp [encodeGroups]
  | case2 a =>
    have := a.isLt
    simp only [encodeGroups, List.mem_cons, List.not_mem_nil, or_false]
    rintro s (rfl | rfl) <;> omega
  | case3 a b =>
    have := a.isLt; have := b.isLt
    simp only [encodeGroups, List.mem_cons, List.not_mem_nil, or_false]
    rintro s (rfl | rfl | rfl) <;> omega
  | case4 a b c rest ih =>
    have := a.isLt; have := b.isLt; have := c.isLt
    simp only [encodeGroups, List.mem_cons]
    rintro s (rfl | rfl | rfl | rfl | hs)
    · omega
    · omega
    · omega
    · omega
    · exact ih s hs

theorem decodeGroups_encodeGroups (bs : List Byte) :
    decodeGroups (encodeGroups bs) = some bs := by
  induction bs using encodeGroups.induct with
  | case1 => rfl
  | case2 a =>
    have := a.isLt
    simp only [encodeGroups, decodeGroups]
    rw [if_pos (by omega)]
    simp only [Option.some.injEq, List.cons.injEq, and_true]
    apply Fin.ext; simp only [byteOf]; omega
  | case3 a b =>
    have := a.isLt; have := b.isLt
    simp only [encodeGroups, decodeGroups]
    rw [if_pos (by omega)]
    simp only [Option.some.injEq, List.cons.injEq, and_true]
    constructor <;> (apply Fin.ext; simp only [byteOf]; omega)
  | case4 a b c rest ih =>
    have := a.isLt; have := b.isLt; have := c.isLt
    simp only [encodeGroups, decodeGroups]
    rw [if_pos (by omega), ih, Option.map_some']
    simp only [Option.some.injEq, List.cons.injEq, and_true]
    refine ⟨?_, ?_, ?_⟩ <;> (apply Fin.ext; simp only [byteOf]; omega)

theorem mapM_charToSextet_map (l : List Nat) (h : ∀ s ∈ l, s < 64) :
    (l.map sextetToChar).mapM charToSextet = some l := by
  induction l with
  | nil => rfl
  | cons x xs ih =>
    have hx : x < 64 := h x (by simp)
    simp only [List.map_cons, List.mapM_cons, charToSextet_sextetToChar x hx,
      ih (fun s hs => h s (by simp [hs]))]
    rfl

/-- Decoding inverts encoding: base64url round-trips every byte string. -/
theorem b64urlDecode_b64urlEncode (bs : List Byte) :
    b64urlDecode (b64urlEncode bs) = some bs := by
  simp only [b64urlDecode, b64urlEncode]
  rw [mapM_charToSextet_map _ (encodeGroups_lt bs)]
  simp [decodeGroups_encodeGroups]

theorem natToBytesLE_length (k n : Nat) : (natToBytesLE k n).length = k := by
  induction k generalizing n with
  | zero => rfl
  | succ m ih => simp [natToBytesLE, ih]

theorem digest_length (bs : List Byte) : (digest bs).length = 32 :=
  natToBytesLE_length 32 _

theorem digest_ne_nil (bs : List Byte) : digest bs ≠ [] := by
  intro h
  have := digest_length bs
  rw [h] at this
  simp at this

theorem stringMk_cons_ne_empty (c : Char) (cs : List Char) :
    String.mk (c :: cs) ≠ "" := by
  intro h
  have h2 : (String.mk (c :: cs)).data = ("" : String).data := by rw [h]
  exact List.noConfusion h2

theorem encodeGroups_ne_nil (bs : List Byte) (h : bs ≠ []) :
    encodeGroups bs ≠ [] := by
  match bs with
  | [] => exact absurd rfl h
  | [a] => simp [encodeGroups]
  | [a, b] => simp [encodeGroups]
  | a :: b :: c :: rest => simp [encodeGroups]

theorem b64urlEncode_ne_empty (bs : List Byte) (h : bs ≠ []) :
    b64urlEncode bs ≠ "" := by
  have h1 := encodeGroups_ne_nil bs h
  unfold b64urlEncode
  match hg : encodeGroups bs with
  | [] => exact absurd hg h1
  | s :: rest =>
    simp only [List.map_cons]
    exact stringMk_cons_ne_empty _ _

theorem fromCanonicalTags_toCanonicalTag (ts : List Tag)
    (h : ∀ t ∈ ts, t.isPair = true) :
    fromCanonicalTags (ts.map toCanonicalTag) = some ts := by
  induction ts with
  | nil => rfl
  | cons t rest ih =>
    have hpair := h t (by simp)
    cases t with
    | encoded s => simp [Tag.isPair] at hpair
    | pair n v =>
      simp only [List.map_cons, toCanonicalTag, fromCanonicalTags,
        b64urlDecode_b64urlEncode, ih (fun x hx => h x (by simp [hx]))]

/-! ## The claims -/

/-- C1: whenever `sign()` succeeds on an unsigned transaction, the
resulting transaction has a non-empty signature, its id is the base64url
encoding of the digest of the signature bytes, and it is `Signed`. -/
theorem claim_C1_sign_populates_id_and_signature
    (tx : Transaction) (key salt : List Byte) (lastTx : String)
    (tx' : Transaction) (hunsigned : tx.state = .Unsigned)
    (hok : signTx tx key salt lastTx = .ok tx') :
    tx'.signature ≠ ""
    ∧ (∃ sb, b64urlDecode tx'.signature = some sb
        ∧ tx'.id = b64urlEncode (digest sb))
    ∧ tx'.state = .Signed := by
  unfold signTx at hok
  split at hok
  · rename_i h
    rw [hunsigned] at h
    exact absurd h (by decide)
  · split at hok
    · exact Except.noConfusion hok
    · rename_i hkey
      cases hok
      refine ⟨?_, ⟨keySign key salt (deepHash (signableFields { tx with last_tx := lastTx })),
        ?_, ?_⟩, rfl⟩
      · exact b64urlEncode_ne_empty _ (digest_ne_nil _)
      · exact b64urlDecode_b64urlEncode _
      · rfl

/-- C1 witness: signing the concrete sample transaction succeeds and the
conclusions hold there. -/
theorem claim_C1_witness :
    ∃ tx', signTx sampleUnsigned [byteOf 9] [byteOf 8] "lt" = Except.ok tx'
      ∧ tx'.signature ≠ "" ∧ tx'.state = .Signed := by
  have hok2 : (signTx sampleUnsigned [byteOf 9] [byteOf 8] "lt").isOk = true := by
    decide
  match hok : signTx sampleUnsigned [byteOf 9] [byteOf 8] "lt" with
  | .error e => rw [hok] at hok2; exact Bool.noConfusion hok2
  | .ok tx' =>
    obtain ⟨h1, _, h3⟩ := claim_C1_sign_populates_id_and_signature
      sampleUnsigned [byteOf 9] [byteOf 8] "lt" tx' (by decide) hok
    exact ⟨tx', rfl, h1, h3⟩

/-- C2: a transaction constructed from raw parameters has an empty id,
an empty signature and is `Unsigned`; none of the non-signing operations
(add_tag, add_metadata, encode_tags, prepare_chunks, scheduling)
populates id or signature. -/
theorem claim_C2_constructed_unsigned_empty_id_signature
    (owner lastTx target quantity reward : String)
    (payload : List Byte) (thr : Nat) :
    (newTransaction owner lastTx target quantity reward payload thr).id = ""
    ∧ (newTransaction owner lastTx target quantity reward payload thr).signature = ""
    ∧ (newTransaction owner lastTx target quantity reward payload thr).state = .Unsigned
    ∧ (∀ tx n v, (addTag tx n v).1.id = tx.id
        ∧ (addTag tx n v).1.signature = tx.signature)
    ∧ (∀ tx m, (addMetadata tx m).1.id = tx.id
        ∧ (addMetadata tx m).1.signature = tx.signature)
    ∧ (∀ tx, (encodeTags tx).id = tx.id
        ∧ (encodeTags tx).signature = tx.signature)
    ∧ (∀ tx, (prepareChunks tx).id = tx.id
        ∧ (prepareChunks tx).signature = tx.signature)
    ∧ (∀ tx t, (scheduleTransaction tx t).id = tx.id
        ∧ (scheduleTransaction tx t).signature = tx.signature) := by
  refine ⟨?_, ?_, ?_, ?_, ?_, ?_, ?_, ?_⟩
  · unfold newTransaction; split <;> rfl
  · unfold newTransaction; split <;> rfl
  · unfold newTransaction; split <;> rfl
  · intro tx n v; unfold addTag; split <;> exact ⟨rfl, rfl⟩
  · intro tx m; unfold addMetadata; split <;> exact ⟨rfl, rfl⟩
  · intro tx; exact ⟨rfl, rfl⟩
  · intro tx; exact ⟨rfl, rfl⟩
  · intro tx t; exact ⟨rfl, rfl⟩

/-- C4: chunking and Merkle-root construction are deterministic
functions of the payload bytes and the maximum chunk size: two runs on
equal inputs yield equal chunk sequences and equal data roots. -/
theorem claim_C4_chunking_deterministic (p q : List Byte) (m k : Nat)
    (hp : p = q) (hm : m = k) :
    chunkPayload p m = chunkPayload q k
    ∧ dataRootBytes p m = dataRootBytes q k := by
  subst hp; subst hm; exact ⟨rfl, rfl⟩

/-- C4 witness: both runs agree on a concrete payload. -/
theorem claim_C4_witness :
    chunkPayload [byteOf 1, byteOf 2, byteOf 3] 2
      = chunkPayload [byteOf 1, byteOf 2, byteOf 3] 2
    ∧ dataRootBytes [byteOf 1, byteOf 2, byteOf 3] 2
      = dataRootBytes [byteOf 1, byteOf 2, byteOf 3] 2 :=
  claim_C4_chunking_deterministic _ _ _ _ rfl rfl

/-- C5: on a `Signed` transaction, `add_tag` and `add_metadata` fail
with `ImmutableTransactionError` and return the transaction unchanged;
on an `Unsigned` transaction they succeed, `add_tag` appending the new
(name, value) pair. -/
theorem claim_C5_signed_tags_immutable (tx : Transaction)
    (n v : List Byte) (m : List (String × String)) :
    (tx.state = .Signed →
        addTag tx n v = (tx, some .immutableTransactionError)
        ∧ addMetadata tx m = (tx, some .immutableTransactionError))
    ∧ (tx.state = .Unsigned →
        (addTag tx n v).2 = none
        ∧ (addTag tx n v).1.tags = tx.tags ++ [.pair n v]
        ∧ (addMetadata tx m).2 = none) := by
  constructor
  · intro hs
    have hne : ¬ tx.state = .Unsigned := by rw [hs]; decide
    constructor
    · unfold addTag; rw [if_neg hne]
    · unfold addMetadata; rw [if_neg hne]
  · intro hu
    refine ⟨?_, ?_, ?_⟩
    · unfold addTag; rw [if_pos hu]
    · unfold addTag; rw [if_pos hu]
    · unfold addMetadata; rw [if_pos hu]

/-- C5 witness: a concretely signed transaction rejects tag mutation
unchanged; the unsigned sample accepts it. -/
theorem claim_C5_witness :
    addTag sampleSigned [byteOf 1] [byteOf 2]
      = (sampleSigned, some .immutableTransactionError)
    ∧ addMetadata sampleSigned [("k", "v")]
      = (sampleSigned, some .immutableTransactionError)
    ∧ (addTag sampleUnsigned [byteOf 1] [byteOf 2]).2 = none :=
  ⟨((claim_C5_signed_tags_immutable sampleSigned [byteOf 1] [byteOf 2]
      [("k", "v")]).1 rfl).1,
   ((claim_C5_signed_tags_immutable sampleSigned [byteOf 1] [byteOf 2]
      [("k", "v")]).1 rfl).2,
   ((claim_C5_signed_tags_immutable sampleUnsigned [byteOf 1] [byteOf 2]
      [("k", "v")]).2 (by decide)).1⟩

/-- C3: serializing a transaction to canonical form and constructing a
new transaction from that form recovers all canonical fields (last_tx,
owner, tags, data, signature, id, and the rest) exactly, and serializing
the reconstruction reproduces the same canonical form. -/
theorem claim_C3_canonical_form_roundtrip (tx : Transaction) (bs : List Byte)
    (hdata : tx.data = b64urlEncode bs)
    (htags : ∀ t ∈ tx.tags, t.isPair = true) :
    ∃ tx', fromCanonical (toCanonical tx) = some tx'
      ∧ tx'.last_tx = tx.last_tx ∧ tx'.owner = tx.owner
      ∧ tx'.target = tx.target ∧ tx'.quantity = tx.quantity
      ∧ tx'.reward = tx.reward ∧ tx'.tags = tx.tags
      ∧ tx'.data = tx.data ∧ tx'.data_size = tx.data_size
      ∧ tx'.data_root = tx.data_root
      ∧ tx'.signature = tx.signature ∧ tx'.id = tx.id
      ∧ toCanonical tx' = toCanonical tx := by
  have h1 : fromCanonicalTags (toCanonical tx).tags = some tx.tags :=
    fromCanonicalTags_toCanonicalTag tx.tags htags
  have h2 : b64urlDecode (toCanonical tx).data = some bs := by
    show b64urlDecode tx.data = some bs
    rw [hdata]
    exact b64urlDecode_b64urlEncode bs
  unfold fromCanonical
  rw [h1, h2]
  exact ⟨_, rfl, rfl, rfl, rfl, rfl, rfl, rfl, rfl, rfl, rfl, rfl, rfl, rfl⟩

/-- C3 witness: round-trip of a concrete tagged transaction. -/
theorem claim_C3_witness :
    ∃ tx', fromCanonical (toCanonical sampleTagged) = some tx'
      ∧ tx'.last_tx = sampleTagged.last_tx
      ∧ tx'.tags = sampleTagged.tags
      ∧ toCanonical tx' = toCanonical sampleTagged := by
  obtain ⟨tx', ha, hb, _, _, _, _, hc, _, _, _, _, _, hd⟩ :=
    claim_C3_canonical_form_roundtrip sampleTagged (strBytes "hello")
      (by decide) (by decide)
  exact ⟨tx', ha, hb, hc, hd⟩

/-- C6: batch submission yields exactly one outcome per input
transaction, in input order, each input paired with its own submission
outcome (accepted id or failure reason) independently of every other
input's outcome. -/
theorem claim_C6_batch_one_outcome_per_input
    (submit : Transaction → Except String String) (txs : List Transaction) :
    (submitBatch submit txs).length = txs.length
    ∧ ∀ i : Nat, (submitBatch submit txs)[i]?
        = (txs[i]?).map (fun tx => (tx, submit tx)) := by
  constructor
  · simp [submitBatch]
  · intro i
    simp [submitBatch]

/-- C7: when the network has never seen the id, awaiting confirmation
terminates at once with `NotFoundError` — one poll, not a loop until
the timeout elapses. -/
theorem claim_C7_notfound_terminates_immediately
    (net : String → NetStatus) (id : String) (timeout pollInterval : Nat)
    (hnever : net id = .notFound)
    (htime : 1 ≤ timeout / max pollInterval 1) :
    awaitConfirmation net id timeout pollInterval
      = (.error .notFoundError, 1) := by
  unfold awaitConfirmation
  obtain ⟨fuel, hf⟩ : ∃ f, timeout / max pollInterval 1 = f + 1 :=
    ⟨timeout / max pollInterval 1 - 1, by omega⟩
  rw [hf]
  simp [awaitAux, pollStatus, hnever]

/-- C7 witness: a network that never saw the id, ample timeout. -/
theorem claim_C7_witness :
    awaitConfirmation (fun _ => NetStatus.notFound) "tx" 10 1
      = (.error .notFoundError, 1) :=
  claim_C7_notfound_terminates_immediately _ _ 10 1 rfl (by decide)

/-- C8: an 18-byte ASCII payload under a large inline threshold yields a
transaction with the data stored inline (base64url of the raw bytes, no
data-root substitution, no eager chunk records), `data_size = 18` (the
raw byte length), and chunk count 1. -/
theorem claim_C8_small_payload_inline :
    (newTransaction "own" "ltx" "" "0" "1" c8Payload 1000).data
        = b64urlEncode c8Payload
    ∧ (newTransaction "own" "ltx" "" "0" "1" c8Payload 1000).data_root = ""
    ∧ (newTransaction "own" "ltx" "" "0" "1" c8Payload 1000).chunks = none
    ∧ (newTransaction "own" "ltx" "" "0" "1" c8Payload 1000).data_size = 18
    ∧ (chunkPayload c8Payload maxChunkSize).length = 1
    ∧ Option.map List.length
        (prepareChunks (newTransaction "own" "ltx" "" "0" "1" c8Payload 1000)).chunks
        = some 1 := by
  refine ⟨?_, ?_, ?_, ?_, ?_, ?_⟩ <;> decide

/-- C9: `get_chunk(i)` fails with `ChunkIndexError` when chunking has
not yet been performed or when `i` is at least the chunk count, and
returns the i-th chunk record when `i` is in range. -/
theorem claim_C9_get_chunk_bounds (tx : Transaction) (i : Nat) :
    (tx.chunks = none → getChunk tx i = .error .chunkIndexError)
    ∧ (∀ recs, tx.chunks = some recs →
        (recs.length ≤ i → getChunk tx i = .error .chunkIndexError)
        ∧ (∀ h : i < recs.length, getChunk tx i = .ok recs[i])) := by
  constructor
  · intro h
    unfold getChunk
    rw [h]
  · intro recs h
    constructor
    · intro hle
      unfold getChunk
      rw [h]
      simp [List.getElem?_eq_none hle]
    · intro hlt
      unfold getChunk
      rw [h]
      simp [List.getElem?_eq_getElem hlt]

/-- C9 witness: unprepared access fails, out-of-range access fails,
in-range access returns a record. -/
theorem claim_C9_witness :
    getChunk sampleUnsigned 0 = .error .chunkIndexError
    ∧ getChunk (prepareChunks sampleUnsigned) 5 = .error .chunkIndexError
    ∧ ∃ r, getChunk (prepareChunks sampleUnsigned) 0 = .ok r :=
  ⟨(claim_C9_get_chunk_bounds sampleUnsigned 0).1 rfl,
   ((claim_C9_get_chunk_bounds (prepareChunks sampleUnsigned) 5).2
      (computeRecords sampleUnsigned.rawData maxChunkSize) rfl).1 (by decide),
   ⟨_, ((claim_C9_get_chunk_bounds (prepareChunks sampleUnsigned) 0).2
      (computeRecords sampleUnsigned.rawData maxChunkSize) rfl).2 (by decide)⟩⟩

/-- C10: `encode_tags()` rewrites the tags list in place into encoded
string entries, preserving the count and order of the tags (entry i is
the encoded form of the original entry i) and leaving every other field
of the transaction unchanged. -/
theorem claim_C10_encode_tags_in_place (tx : Transaction) :
    (encodeTags tx).tags.length = tx.tags.length
    ∧ (∀ i : Nat, (encodeTags tx).tags[i]? = (tx.tags[i]?).map encodeTagEntry)
    ∧ ((∀ t ∈ tx.tags, t.isPair = true) →
        ∀ t ∈ (encodeTags tx).tags, t.isEncoded = true)
    ∧ (encodeTags tx).id = tx.id ∧ (encodeTags tx).last_tx = tx.last_tx
    ∧ (encodeTags tx).owner = tx.owner ∧ (encodeTags tx).target = tx.target
    ∧ (encodeTags tx).quantity = tx.quantity
    ∧ (encodeTags tx).reward = tx.reward
    ∧ (encodeTags tx).data = tx.data
    ∧ (encodeTags tx).data_size = tx.data_size
    ∧ (encodeTags tx).data_root = tx.data_root
    ∧ (encodeTags tx).signature = tx.signature
    ∧ (encodeTags tx).metadata = tx.metadata
    ∧ (encodeTags tx).state = tx.state := by
  refine ⟨by simp [encodeTags], ?_, ?_, rfl, rfl, rfl, rfl, rfl, rfl, rfl,
    rfl, rfl, rfl, rfl, rfl⟩
  · intro i
    simp [encodeTags]
  · intro hall t ht
    simp only [encodeTags, List.mem_map] at ht
    obtain ⟨t0, ht0, rfl⟩ := ht
    cases t0 with
    | pair n v => rfl
    | encoded s => rfl

/-- C10 witness: encoding the tags of the concrete tagged sample keeps
the count and yields only encoded entries. -/
theorem claim_C10_witness :
    (encodeTags sampleTagged).tags.length = sampleTagged.tags.length
    ∧ ∀ t ∈ (encodeTags sampleTagged).tags, t.isEncoded = true :=
  ⟨(claim_C10_encode_tags_in_place sampleTagged).1,
   (claim_C10_encode_tags_in_place sampleTagged).2.2.1 (by decide)⟩

end Arweave
